import Mathlib

/-!
Verification development for the GreyCells coding-agent repository
(`coding_agent.py`).  The two core components covered by the claims are:

* the structured-text extractor (`parse_markdown_with_schema`,
  `extract_json_regex`, the `cleaner_*` wrappers), and
* the iterative repair loop inside `main` (execute, arbitrate TEST,
  optional re-execute, arbitrate SOURCE, patch, bounded by
  `max_loop_count`).

Python values flowing through the extractor are modelled by `PyVal`
(dicts as insertion-ordered association lists, as in CPython).  The
external markdown tokenizer (the `markdown_it` dependency) and the JSON
parser (`json.loads`) are external collaborators: the functions under
verification are parameterised over them, and a small concrete
tokenizer `mdTokenize` covering the CommonMark fragment actually used
(ATX headings, backtick fences, paragraphs) is provided so that
theorems can be evaluated on concrete inputs.
-/

/-- Model of a Python value as used by the extractor: `None`, strings,
booleans, integers, lists, and insertion-ordered dicts. -/
inductive PyVal where
  | none
  | str (s : String)
  | bool (b : Bool)
  | int (n : Int)
  | list (xs : List PyVal)
  | dict (entries : List (String × PyVal))

/-- Python truthiness (`bool(v)`) for the modelled values. -/
def pyTruthy : PyVal → Bool
  | PyVal.none => false
  | PyVal.str s => !(s = "")
  | PyVal.bool b => b
  | PyVal.int n => !(n = 0)
  | PyVal.list xs => !xs.isEmpty
  | PyVal.dict d => !d.isEmpty

/-- `m[k] = v` on an insertion-ordered association list: overwrite the
existing binding in place, or append a new one (CPython dict update). -/
def alSet {α : Type} : List (String × α) → String → α → List (String × α)
  | [], k, v => [(k, v)]
  | (k', v') :: rest, k, v =>
    if k' = k then (k', v) :: rest else (k', v') :: alSet rest k v

/-- Lookup in an association list (first binding wins, matching a dict
built with `alSet`). -/
def alGet? {α : Type} : List (String × α) → String → Option α
  | [], _ => Option.none
  | (k', v) :: rest, k => if k' = k then some v else alGet? rest k

/-- Python `d.get(k)` with default `None`. -/
def dictGet (d : List (String × PyVal)) (k : String) : PyVal :=
  (alGet? d k).getD PyVal.none

/-- Characters treated as whitespace by Python `str.strip()` (ASCII
fragment). -/
def isWsChar (c : Char) : Bool :=
  c = ' ' || c = '\t' || c = '\n' || c = '\r' || c = '\x0b' || c = '\x0c'

/-- Python `s.strip()` on a character list. -/
def pyStripWs (cs : List Char) : List Char :=
  ((cs.dropWhile isWsChar).reverse.dropWhile isWsChar).reverse

/-- Python `s.strip(chars)` on a character list: remove leading and
trailing characters drawn from `set`. -/
def pyStripChars (cs : List Char) (set : List Char) : List Char :=
  ((cs.dropWhile (· ∈ set)).reverse.dropWhile (· ∈ set)).reverse

/-- ASCII lower-casing of a string (Python `str.lower()` on the ASCII
inputs this program handles). -/
def pyLower (s : String) : String := ⟨s.data.map Char.toLower⟩

/-- ASCII upper-casing of a string (Python `str.upper()`). -/
def pyUpper (s : String) : String := ⟨s.data.map Char.toUpper⟩

/-- Python `s.strip()` on a string. -/
def pyStrip (s : String) : String := ⟨pyStripWs s.data⟩

/-- Does `p` occur at the start of `s`? -/
def subPre : List Char → List Char → Bool
  | [], _ => true
  | _ :: _, [] => false
  | p :: ps, c :: cs => p = c && subPre ps cs

/-- Does `p` occur as a contiguous sublist of `s`?  Models Python's
`p in s` substring test. -/
def subInfix (p : List Char) : List Char → Bool
  | [] => subPre p []
  | c :: rest => subPre p (c :: rest) || subInfix p rest

/-- Python substring containment `needle in hay` on strings. -/
def strContains (needle hay : String) : Bool := subInfix needle.data hay.data

theorem subPre_refl (p : List Char) : subPre p p = true := by
  induction p with
  | nil => rfl
  | cons c cs ih => simp [subPre, ih]

theorem subInfix_refl (p : List Char) : subInfix p p = true := by
  cases p with
  | nil => rfl
  | cons c cs => simp [subInfix, subPre_refl]

theorem strContains_refl (s : String) : strContains s s = true :=
  subInfix_refl s.data

/-- The token stream produced by the markdown tokenizer, restricted to
the token kinds `parse_markdown_with_schema` inspects: `heading_open`,
`inline` (with its text content), `fence` (with its literal content);
every other token kind is collapsed into `other`. -/
inductive MdToken where
  | heading_open
  | inline (content : String)
  | fence (content : String)
  | other
deriving DecidableEq

/-- Split a character list into lines at newline characters. -/
def splitLinesCl : List Char → List (List Char)
  | [] => [[]]
  | c :: rest =>
    let r := splitLinesCl rest
    if c = '\n' then [] :: r
    else (c :: r.headD []) :: r.tail

/-- An opening code-fence line: starts with three backticks (an info
string may follow). -/
def isFenceOpenLine (l : List Char) : Bool := subPre ['`', '`', '`'] l

/-- A closing code-fence line: after stripping whitespace, three or
more backticks and nothing else. -/
def isFenceCloseLine (l : List Char) : Bool :=
  let t := pyStripWs l
  decide (3 ≤ t.length) && t.all (fun c => c = '`')

/-- ATX heading recogniser: one to six `#` characters followed by a
space (or end of line) yield the trimmed title. -/
def headingTitle (l : List Char) : Option (List Char) :=
  let hashes := l.takeWhile (· = '#')
  let rest := l.drop hashes.length
  if 1 ≤ hashes.length ∧ hashes.length ≤ 6 then
    match rest with
    | [] => some []
    | c :: _ => if c = ' ' then some (pyStripWs rest) else Option.none
  else Option.none

/-- Split the lines of a fenced block: interior lines up to (and
excluding) the closing fence, and the lines after it.  An unclosed
fence runs to the end of the document. -/
def fenceSplit : List (List Char) → (List (List Char) × List (List Char))
  | [] => ([], [])
  | l :: ls =>
    if isFenceCloseLine l then ([], ls)
    else
      let p := fenceSplit ls
      (l :: p.1, p.2)

/-- Group the continuation lines of a paragraph: stop at a blank line,
a heading, or a fence opening. -/
def paraSplit : List (List Char) → (List (List Char) × List (List Char))
  | [] => ([], [])
  | l :: ls =>
    if pyStripWs l = [] ∨ (headingTitle l).isSome ∨ isFenceOpenLine l then
      ([], l :: ls)
    else
      let p := paraSplit ls
      (l :: p.1, p.2)

theorem fenceSplit_len (ls : List (List Char)) :
    (fenceSplit ls).2.length ≤ ls.length := by
  induction ls with
  | nil => simp [fenceSplit]
  | cons l ls ih =>
    simp only [fenceSplit]
    split
    · simp
    · simpa using Nat.le_succ_of_le ih

theorem paraSplit_len (ls : List (List Char)) :
    (paraSplit ls).2.length ≤ ls.length := by
  induction ls with
  | nil => simp [paraSplit]
  | cons l ls ih =>
    simp only [paraSplit]
    split
    · simp
    · simpa using Nat.le_succ_of_le ih

/-- Fence content as recorded by the tokenizer: each interior line with
its trailing newline. -/
def fenceContent (lines : List (List Char)) : List Char :=
  lines.foldr (fun l acc => l ++ '\n' :: acc) []

/-- Paragraph inline content: the lines joined with newlines. -/
def joinLines : List (List Char) → List Char
  | [] => []
  | [l] => l
  | l :: ls => l ++ '\n' :: joinLines ls

/-- Turn a list of lines into the markdown token stream: blank lines
are skipped, ATX headings yield `heading_open`/`inline`/close triples,
fenced blocks yield a single `fence` token, and runs of other lines
yield a paragraph (`other`/`inline`/`other`).  The `fuel` argument
makes the recursion structural; every step consumes at least one line,
so `fuel = ls.length` (as supplied by `mdTokenize`) is always enough. -/
def tokenizeLines : Nat → List (List Char) → List MdToken
  | _, [] => []
  | 0, _ :: _ => []
  | fuel + 1, l :: ls =>
    if pyStripWs l = [] then tokenizeLines fuel ls
    else
      match headingTitle l with
      | some t =>
        MdToken.heading_open :: MdToken.inline ⟨t⟩ :: MdToken.other :: tokenizeLines fuel ls
      | Option.none =>
        if isFenceOpenLine l then
          MdToken.fence ⟨fenceContent (fenceSplit ls).1⟩ :: tokenizeLines fuel (fenceSplit ls).2
        else
          MdToken.other :: MdToken.inline ⟨joinLines (l :: (paraSplit ls).1)⟩ ::
            MdToken.other :: tokenizeLines fuel (paraSplit ls).2

/-- Modelled from the spec: the external markdown tokenizer
(`MarkdownIt("commonmark").parse`), restricted to the CommonMark
fragment the spec's extractor relies on — heading markers, fenced
blocks, and prose paragraphs (§4.1 tier 2). -/
def mdTokenize (s : String) : List MdToken :=
  tokenizeLines (splitLinesCl s.data).length (splitLinesCl s.data)

/-- An extraction schema as in the source: a list of
`(HeaderName, target_key, type)` rules, with `type` one of `"text"`,
`"code"`, `"json"` (a Python dict, modelled as an insertion-ordered
list). -/
abbrev MdSchema : Type := List (String × String × String)

/-- A structured record: the result dict of the extractor. -/
abbrev Record : Type := List (String × PyVal)

/-- The initial result dict
`{config[0]: None for config in schema.values()}`. -/
def initRecord (schema : MdSchema) : Record :=
  schema.foldl (fun r cfg => alSet r cfg.2.1 PyVal.none) []

/-- The lower-cased header lookup table
`{k.lower(): v for k, v in schema.items()}`. -/
def normSchema (schema : MdSchema) : List (String × String × String) :=
  schema.foldl (fun m cfg => alSet m (pyLower cfg.1) cfg.2) []

/-- One collection step of the section scan: fold the current token
into the result, given the active `(target_key, type)` pair.
`jl` models `json.loads` (`Option.none` = `JSONDecodeError`). -/
def collectToken (jl : String → Option PyVal) (k ty : String) (tok : MdToken)
    (res : Record) : Record :=
  if ty = "text" then
    match tok with
    | MdToken.inline c =>
      match dictGet res k with
      | PyVal.none => alSet res k (PyVal.str c)
      | PyVal.str s => alSet res k (PyVal.str (s ++ "\n" ++ c))
      | _ => res
    | _ => res
  else if ty = "code" then
    match tok with
    | MdToken.fence c => alSet res k (PyVal.str (pyStrip c))
    | _ => res
  else if ty = "json" then
    match tok with
    | MdToken.fence c => alSet res k ((jl (pyStrip c)).getD (PyVal.dict []))
    | _ => res
  else res

/-- The tier-2 section scan of `parse_markdown_with_schema`: walk the
token stream; a `heading_open` whose following `inline` title matches
the schema (case-insensitively) activates that field, an unrecognised
heading deactivates collection, and other tokens are folded into the
record for the active field.  The heading's own `inline` token is then
visited by the loop like any other token (as in the source, which only
`continue`s past the `heading_open` itself). -/
def scanTokens (jl : String → Option PyVal) (ns : List (String × String × String)) :
    List MdToken → Option (String × String) → Record → Record
  | [], _, res => res
  | MdToken.heading_open :: rest, cur, res =>
    match rest with
    | MdToken.inline t :: _ =>
      match alGet? ns (pyLower (pyStrip t)) with
      | some tv => scanTokens jl ns rest (some tv) res
      | Option.none => scanTokens jl ns rest Option.none res
    | _ => scanTokens jl ns rest cur res
  | tok :: rest, cur, res =>
    match cur with
    | Option.none => scanTokens jl ns rest cur res
    | some (k, ty) =>
      -- Python `if current_target_key:` — an empty target key is falsy.
      if k = "" then scanTokens jl ns rest cur res
      else scanTokens jl ns rest cur (collectToken jl k ty tok res)

/-- The wrapper-peeling sniff of `parse_markdown_with_schema`: the
interior of a lone fenced block is re-parsed when it contains one of
the declared section headers (`"## Reasoning"`/`"## Content"`). -/
def peelSniff (inner : String) : Bool :=
  strContains "## Reasoning" inner || strContains "## Content" inner

/-- Tokenize and run the section scan (the non-peeling path of
`parse_markdown_with_schema`). -/
def scanAll (mdParse : String → List MdToken) (jl : String → Option PyVal)
    (schema : MdSchema) (llm : String) : Record :=
  scanTokens jl (normSchema schema) (mdParse llm) Option.none (initRecord schema)

/-- `parse_markdown_with_schema(llm_output, schema)`, parameterised
over the markdown tokenizer and the JSON parser.  The `fuel` argument
bounds the wrapper-peeling recursion (Python bounds it by the
interpreter recursion limit); at `0` the scan runs without peeling. -/
def parse_markdown_with_schema (mdParse : String → List MdToken)
    (jl : String → Option PyVal) (schema : MdSchema) : Nat → String → Record
  | 0, llm => scanAll mdParse jl schema llm
  | fuel + 1, llm =>
    match mdParse llm with
    | [MdToken.fence inner] =>
      if peelSniff inner then
        parse_markdown_with_schema mdParse jl schema fuel inner
      else scanAll mdParse jl schema llm
    | _ => scanAll mdParse jl schema llm

/-- The peeling stage in isolation: strip nested wrappers while the
sniff fires, returning the text the section scan will run on. -/
def peelText (mdParse : String → List MdToken) : Nat → String → String
  | 0, llm => llm
  | fuel + 1, llm =>
    match mdParse llm with
    | [MdToken.fence inner] =>
      if peelSniff inner then peelText mdParse fuel inner else llm
    | _ => llm

/-- The schema of `cleaner_source_code` (the `coder_schema` dict). -/
def coderSchema : MdSchema :=
  [("Reasoning", "reasoning", "text"),
   ("Content", "content", "code"),
   ("Metadata", "metadata", "json")]

/-- The schema of `cleaner_test_case` (the `test_schema` dict). -/
def testSchema : MdSchema :=
  [("Reasoning", "reasoning", "text"),
   ("Content", "content", "code"),
   ("Metadata", "metadata", "json")]

/-- The schema shared by `cleaner_debug_test` and
`cleaner_debug_source` (their `debug_schema` dict). -/
def debugSchema : MdSchema :=
  [("Reasoning", "reasoning", "text"),
   ("Decision", "decision", "text"),
   ("File_content", "file_content", "code")]

/-- The preprocessing both generation cleaners apply before parsing:
`llm_output.strip("\n`markdown") + "\n```"` (strip any of the
characters of that string from both ends, then append a closing
fence). -/
def cleanerPre (s : String) : String :=
  (⟨pyStripChars s.data ['\n', '`', 'm', 'a', 'r', 'k', 'd', 'o', 'w', 'n']⟩ : String) ++ "\n```"

/-- `cleaner_source_code`: parse with `coderSchema`, then read the
`metadata` dict and the `content` code string and store the content
under `meta["content"]`.  A `None` content crashes at
`print(source_code[:100])` and a `None` (or otherwise non-dict)
metadata crashes at `meta["content"] = source_code`; both uncaught
`TypeError`s are modelled as `Except.error`. -/
def cleaner_source_code (mdParse : String → List MdToken)
    (jl : String → Option PyVal) (fuel : Nat) (llm : String) :
    Except String (List (String × PyVal)) :=
  let cleaned := parse_markdown_with_schema mdParse jl coderSchema fuel (cleanerPre llm)
  match dictGet cleaned "content" with
  | PyVal.str s =>
    match dictGet cleaned "metadata" with
    | PyVal.dict d => Except.ok (alSet d "content" (PyVal.str s))
    | _ => Except.error "TypeError"
  | _ => Except.error "TypeError"

/-- `cleaner_test_case`: parse with `testSchema`; a non-dict `metadata`
crashes at `meta.get('filename', 'test.py')` (modelled as
`Except.error`); otherwise the content and reasoning (possibly `None`)
are stored into the metadata dict, and a missing or falsy `filename`
is defaulted to `"test.py"`. -/
def cleaner_test_case (mdParse : String → List MdToken)
    (jl : String → Option PyVal) (fuel : Nat) (llm : String) :
    Except String (List (String × PyVal)) :=
  let cleaned := parse_markdown_with_schema mdParse jl testSchema fuel (cleanerPre llm)
  match dictGet cleaned "metadata" with
  | PyVal.dict d =>
    let d1 := alSet d "content" (dictGet cleaned "content")
    let d2 := alSet d1 "reasoning" (dictGet cleaned "reasoning")
    if (alGet? d2 "filename").isNone ∨ pyTruthy (dictGet d2 "filename") = false then
      Except.ok (alSet d2 "filename" (PyVal.str "test.py"))
    else Except.ok d2
  | _ => Except.error "AttributeError"

/-- The decision normalisation both debug cleaners apply to the
extracted `Decision` text: `.strip().upper().replace("*", "")`. -/
def normalizeDecisionText (raw : String) : String :=
  ⟨((pyStripWs raw.data).map Char.toUpper).filter (fun c => !(c = '*'))⟩

/-- The decision classification of `cleaner_debug_test` (lines
480-484): after normalising, any text containing `"FIX"` becomes
`"FIX"`, else any text containing `"REMAIN"` becomes `"REMAIN"`, and
anything else is passed through unchanged. -/
def cleaner_debug_test_decision (raw : String) : String :=
  let d := normalizeDecisionText raw
  if strContains "FIX" d then "FIX"
  else if strContains "REMAIN" d then "REMAIN"
  else d

/-- The decision classification of `cleaner_debug_source` (lines
542-546), with `"VETO"` in place of `"REMAIN"`. -/
def cleaner_debug_source_decision (raw : String) : String :=
  let d := normalizeDecisionText raw
  if strContains "FIX" d then "FIX"
  else if strContains "VETO" d then "VETO"
  else d

/-- The spec's arbitration-decision enumeration (§3
`ArbitrationVerdict.decision`). -/
inductive ArbDecision where
  | FIX
  | REMAIN
  | VETO
  | UNKNOWN
deriving DecidableEq

/-- How `main` routes the TEST arbitration decision (lines 767-777):
the `else` branch — anything that is neither `"FIX"` nor `"REMAIN"` —
is the spec's `UNKNOWN`. -/
def mainTestDecision (d : String) : ArbDecision :=
  if d = "FIX" then ArbDecision.FIX
  else if d = "REMAIN" then ArbDecision.REMAIN
  else ArbDecision.UNKNOWN

/-- How `main` routes the SOURCE arbitration decision (lines 811-821). -/
def mainSourceDecision (d : String) : ArbDecision :=
  if d = "FIX" then ArbDecision.FIX
  else if d = "VETO" then ArbDecision.VETO
  else ArbDecision.UNKNOWN

/-- A `json.loads` stand-in that fails on every input, usable wherever
a concrete example only feeds it non-JSON text. -/
def jloadsNone : String → Option PyVal := fun _ => Option.none

/-- The loop's terminal outcome (§3 `LoopState.outcome`): `SUCCESS`
when a test run passes, `EXHAUSTED` when the iteration budget runs out,
`ABORTED` when an arbitration decision is unrecognised. -/
inductive Outcome where
  | SUCCESS
  | EXHAUSTED
  | ABORTED
deriving DecidableEq

/-- The mutable state of `main`'s repair loop: the two artifacts'
contents, the loop counter, and call counters for the three external
collaborators (used to index their response streams).  The `revision`
counters are the spec's audit metadata (§3 `Artifact.revision`): the
source keeps no such counter, so they are modelled from the spec as
incrementing exactly when a content replacement happens. -/
structure LoopSt where
  codeContent : PyVal
  codeRev : Nat
  testContent : PyVal
  testRev : Nat
  loopCount : Nat
  execCalls : Nat
  testArbCalls : Nat
  srcArbCalls : Nat

/-- What `main` consumes from a debug cleaner: the (already
classified) decision string and the replacement `file_content`. -/
structure DebugFix where
  decision : String
  file_content : PyVal

/-- The TEST-arbitration block of `main` (lines 762-791): `"FIX"`
replaces the TEST content and immediately re-executes — passing ends
the loop with `SUCCESS`, failing falls through to SOURCE arbitration;
`"REMAIN"` falls through without re-executing; anything else stops the
loop (`ABORTED`).  `Sum.inl` is a terminal result, `Sum.inr` the state
handed to SOURCE arbitration. -/
def testStep (exec : Nat → Bool) (tArb : Nat → DebugFix) (st : LoopSt) :
    (LoopSt × Outcome) ⊕ LoopSt :=
  if (tArb st.testArbCalls).decision = "FIX" then
    if exec st.execCalls then
      Sum.inl ({ st with
                   testArbCalls := st.testArbCalls + 1,
                   testContent := (tArb st.testArbCalls).file_content,
                   testRev := st.testRev + 1,
                   execCalls := st.execCalls + 1 }, Outcome.SUCCESS)
    else
      Sum.inr { st with
                  testArbCalls := st.testArbCalls + 1,
                  testContent := (tArb st.testArbCalls).file_content,
                  testRev := st.testRev + 1,
                  execCalls := st.execCalls + 1 }
  else if (tArb st.testArbCalls).decision = "REMAIN" then
    Sum.inr { st with testArbCalls := st.testArbCalls + 1 }
  else
    Sum.inl ({ st with testArbCalls := st.testArbCalls + 1 }, Outcome.ABORTED)

/-- The SOURCE-arbitration block of `main` (lines 794-821): `"FIX"`
replaces the SOURCE content, `"VETO"` changes nothing, anything else
stops the loop (`ABORTED`); in the first two cases the loop continues
with the next iteration (`Sum.inr`). -/
def srcStep (sArb : Nat → DebugFix) (st : LoopSt) : (LoopSt × Outcome) ⊕ LoopSt :=
  if (sArb st.srcArbCalls).decision = "FIX" then
    Sum.inr { st with
                srcArbCalls := st.srcArbCalls + 1,
                codeContent := (sArb st.srcArbCalls).file_content,
                codeRev := st.codeRev + 1 }
  else if (sArb st.srcArbCalls).decision = "VETO" then
    Sum.inr { st with srcArbCalls := st.srcArbCalls + 1 }
  else
    Sum.inl ({ st with srcArbCalls := st.srcArbCalls + 1 }, Outcome.ABORTED)

/-- The `while loop_count < max_loops` loop of `main` (lines 726-821),
with the external collaborators abstracted as response streams indexed
by call count: `exec k` is the `is_pass` verdict of the `k`-th
execution, `tArb i`/`sArb i` the `i`-th TEST/SOURCE debug-cleaner
result.  The fuel argument is `max_loops - loop_count`; on the last
iteration a failing execution breaks out (`EXHAUSTED`) before any
arbitration, exactly as `if loop_count == max_loops: break`. -/
def runAux (exec : Nat → Bool) (tArb sArb : Nat → DebugFix) :
    Nat → LoopSt → LoopSt × Outcome
  | 0, st => (st, Outcome.EXHAUSTED)
  | n + 1, st =>
    if exec st.execCalls then
      ({ st with loopCount := st.loopCount + 1, execCalls := st.execCalls + 1 },
       Outcome.SUCCESS)
    else if n = 0 then
      ({ st with loopCount := st.loopCount + 1, execCalls := st.execCalls + 1 },
       Outcome.EXHAUSTED)
    else
      match testStep exec tArb
          { st with loopCount := st.loopCount + 1, execCalls := st.execCalls + 1 } with
      | Sum.inl r => r
      | Sum.inr st3 =>
        match srcStep sArb st3 with
        | Sum.inl r => r
        | Sum.inr st4 => runAux exec tArb sArb n st4

/-- The initial loop state, right after `GENERATE_TEST`: the two
freshly generated artifact contents, all counters zero. -/
def initSt (code test : PyVal) : LoopSt :=
  { codeContent := code, codeRev := 0, testContent := test, testRev := 0,
    loopCount := 0, execCalls := 0, testArbCalls := 0, srcArbCalls := 0 }

/-- Run the repair loop of `main` with iteration budget `maxLoops`
(`max_loop_count`, default 3). -/
def runLoop (maxLoops : Nat) (exec : Nat → Bool) (tArb sArb : Nat → DebugFix)
    (code test : PyVal) : LoopSt × Outcome :=
  runAux exec tArb sArb maxLoops (initSt code test)

/-- The loop state carried by either side of a step result. -/
def stepState : (LoopSt × Outcome) ⊕ LoopSt → LoopSt
  | Sum.inl (st, _) => st
  | Sum.inr st => st

/-- The value of a hexadecimal digit. -/
def hexVal? (c : Char) : Option Nat :=
  if '0' ≤ c ∧ c ≤ '9' then some (c.toNat - 48)
  else if 'a' ≤ c ∧ c ≤ 'f' then some (c.toNat - 87)
  else if 'A' ≤ c ∧ c ≤ 'F' then some (c.toNat - 55)
  else Option.none

/-- Read the four hex digits of a `\uXXXX` escape, returning the code
unit and the remaining characters. -/
def readHex4 : List Char → Option (Nat × List Char)
  | h1 :: h2 :: h3 :: h4 :: rest =>
    match hexVal? h1, hexVal? h2, hexVal? h3, hexVal? h4 with
    | some a, some b, some c, some d => some (((a * 16 + b) * 16 + c) * 16 + d, rest)
    | _, _, _, _ => Option.none
  | _ => Option.none

/-- Modelled from the spec/stdlib: JSON string-literal unescaping, the
body of `json.loads` applied to the quoted capture.  Recognises the
simple JSON escapes and `\uXXXX` escapes including surrogate pairs; an
invalid escape, a control character, a stray quote, or a lone
surrogate (which Python would keep as an unpaired surrogate character
that Lean's `Char` cannot represent — the one modelled deviation) makes
decoding fail (`Option.none`), in which case `safe_json_decode` falls
back to the raw text.  The fuel argument makes the recursion
structural; every step consumes at least one character, so the
character count supplied by `jsonUnescape` is always enough. -/
def jsonUnescapeF : Nat → List Char → Option (List Char)
  | _, [] => some []
  | 0, _ :: _ => Option.none
  | f + 1, '\\' :: rest =>
    match rest with
    | [] => Option.none
    | 'u' :: rest1 =>
      match readHex4 rest1 with
      | Option.none => Option.none
      | some (n, rest2) =>
        if n < 0xD800 ∨ 0xDFFF < n then
          (jsonUnescapeF f rest2).map (fun r => Char.ofNat n :: r)
        else if n ≤ 0xDBFF then
          match rest2 with
          | '\\' :: 'u' :: rest3 =>
            match readHex4 rest3 with
            | some (m, rest4) =>
              if 0xDC00 ≤ m ∧ m ≤ 0xDFFF then
                (jsonUnescapeF f rest4).map
                  (fun r => Char.ofNat (0x10000 + (n - 0xD800) * 0x400 + (m - 0xDC00)) :: r)
              else Option.none
            | Option.none => Option.none
          | _ => Option.none
        else Option.none
    | c :: rest1 =>
      match
        (if c = '"' then some '"'
         else if c = '\\' then some '\\'
         else if c = '/' then some '/'
         else if c = 'n' then some '\n'
         else if c = 't' then some '\t'
         else if c = 'r' then some '\r'
         else if c = 'b' then some '\x08'
         else if c = 'f' then some '\x0c'
         else Option.none) with
      | some e => (jsonUnescapeF f rest1).map (fun r => e :: r)
      | Option.none => Option.none
  | f + 1, c :: rest =>
    if c = '"' ∨ c.toNat < 32 then Option.none
    else (jsonUnescapeF f rest).map (fun r => c :: r)

/-- JSON string-literal unescaping at full fuel. -/
def jsonUnescape (cs : List Char) : Option (List Char) := jsonUnescapeF cs.length cs

/-- `safe_json_decode(raw_str)`: decode the text as a JSON string
literal, returning the raw text unchanged when decoding fails. -/
def safe_json_decode (raw : String) : String :=
  match jsonUnescape raw.data with
  | some cs => ⟨cs⟩
  | Option.none => raw

/-- Leftmost-match driver for the regex models: try the pattern at
every start position, left to right (Python `re.search`). -/
def reSearch {α : Type} (tryMatch : List Char → Option α) : List Char → Option α
  | [] => tryMatch []
  | c :: rest =>
    match tryMatch (c :: rest) with
    | some r => some r
    | Option.none => reSearch tryMatch rest

/-- Match a literal character sequence, returning the remainder. -/
def matchLit : List Char → List Char → Option (List Char)
  | [], s => some s
  | _ :: _, [] => Option.none
  | p :: ps, c :: cs => if c = p then matchLit ps cs else Option.none

/-- Match a literal character sequence ASCII-case-insensitively
(`re.IGNORECASE`). -/
def matchLitCI : List Char → List Char → Option (List Char)
  | [], s => some s
  | _ :: _, [] => Option.none
  | p :: ps, c :: cs => if c.toLower = p.toLower then matchLitCI ps cs else Option.none

/-- The lazy capture `(.*?)(?<!\\)"` with `re.DOTALL`: consume
characters (newlines included) up to the first quote not preceded by a
backslash; `prev` is the character just before the current position.
No such quote means the pattern fails at this start position. -/
def captureToQuote (prev : Char) : List Char → Option (List Char)
  | [] => Option.none
  | c :: rest =>
    if c = '"' ∧ ¬(prev = '\\') then some []
    else (captureToQuote c rest).map (fun r => c :: r)

/-- The lazy capture `\[(.*?)\]` body: characters up to the first
closing bracket. -/
def captureToBracket : List Char → Option (List Char)
  | [] => Option.none
  | c :: rest =>
    if c = ']' then some []
    else (captureToBracket rest).map (fun r => c :: r)

/-- One attempt of the pattern `"field"\s*:\s*"(.*?)(?<!\\)"` at a
fixed start position, for a field name whose characters are all
regex-ordinary (the interpolated field then matches itself
literally). -/
def tryStrPat (field : List Char) (s : List Char) : Option (List Char) :=
  match matchLit ('"' :: field ++ ['"']) s with
  | Option.none => Option.none
  | some s1 =>
    match s1.dropWhile isWsChar with
    | ':' :: s2 =>
      match s2.dropWhile isWsChar with
      | '"' :: s3 => captureToQuote '"' s3
      | _ => Option.none
    | _ => Option.none

/-- One attempt of the pattern `"field"\s*:\s*\[(.*?)\]` at a fixed
start position, for a field name whose characters are all
regex-ordinary (matched literally). -/
def tryListPat (field : List Char) (s : List Char) : Option (List Char) :=
  match matchLit ('"' :: field ++ ['"']) s with
  | Option.none => Option.none
  | some s1 =>
    match s1.dropWhile isWsChar with
    | ':' :: s2 =>
      match s2.dropWhile isWsChar with
      | '[' :: s3 => captureToBracket s3
      | _ => Option.none
    | _ => Option.none

/-- One attempt of the case-insensitive pattern
`"field"\s*:\s*(true|false)` at a fixed start position (the
`re.IGNORECASE` flag covers the field name as well), for a field name
whose characters are all regex-ordinary (matched
case-insensitively as a literal). -/
def tryBoolPat (field : List Char) (s : List Char) : Option Bool :=
  match matchLitCI ('"' :: field ++ ['"']) s with
  | Option.none => Option.none
  | some s1 =>
    match s1.dropWhile isWsChar with
    | ':' :: s2 =>
      let s3 := s2.dropWhile isWsChar
      match matchLitCI ['t', 'r', 'u', 'e'] s3 with
      | some _ => some true
      | Option.none =>
        match matchLitCI ['f', 'a', 'l', 's', 'e'] s3 with
        | some _ => some false
        | Option.none => Option.none
    | _ => Option.none

/-- Is the character one of the two quote kinds of the item pattern? -/
def isQuoteChar (c : Char) : Bool := c = '"' || c = '\''

/-- The `re.findall` engine for the item pattern `["']([^"']+)["']`:
scan left to right, matching an opening quote, one or more non-quote
characters, and a closing quote (the two quotes need not be of the
same kind), collecting non-overlapping matches. -/
def findallQuotedAux : Option (List Char) → List Char → List (List Char)
  | _, [] => []
  | Option.none, c :: rest =>
    if isQuoteChar c then findallQuotedAux (some []) rest
    else findallQuotedAux Option.none rest
  | some acc, c :: rest =>
    if isQuoteChar c then
      if acc.isEmpty then findallQuotedAux (some []) rest
      else acc.reverse :: findallQuotedAux Option.none rest
    else findallQuotedAux (some (c :: acc)) rest

/-- All items captured by `["']([^"']+)["']` over the raw list body. -/
def findallQuoted (s : List Char) : List (List Char) :=
  findallQuotedAux Option.none s

/-- The characters Python's `re` treats as special outside character
classes; a field name made only of other (ordinary) characters is
matched literally by the interpolated pattern. -/
def regexMetaChars : List Char :=
  ['.', '^', '$', '*', '+', '?', '\x7b', '\x7d', '[', ']', '\\', '|', '(', ')']

/-- Does the field name consist only of regex-ordinary characters, so
that splicing it into the pattern matches it literally? -/
def fieldRegexSafe (field : String) : Bool :=
  field.data.all (fun c => !(c ∈ regexMetaChars))

/-- The pattern text the source builds for a `"string"` field:
`fr'"{field}"\s*:\s*"(.*?)(?<!\\)"'` with the field name spliced in
unescaped. -/
def strFieldPattern (field : String) : List Char :=
  '"' :: field.data ++ ("\"\\s*:\\s*\"(.*?)(?<!\\\\)\"").data

/-- The pattern text the source builds for a `"list"` field:
`fr'"{field}"\s*:\s*\[(.*?)\]'`. -/
def listFieldPattern (field : String) : List Char :=
  '"' :: field.data ++ ("\"\\s*:\\s*\\[(.*?)\\]").data

/-- The pattern text the source builds for a `"bool"` field:
`fr'"{field}"\s*:\s*(true|false)'`. -/
def boolFieldPattern (field : String) : List Char :=
  '"' :: field.data ++ ("\"\\s*:\\s*(true|false)").data

/-- Modelled from the stdlib: the group/class well-formedness scan
`re.compile` performs.  Walks the pattern skipping escaped characters,
tracking character classes and group depth; a closing parenthesis at
depth zero, unbalanced groups, an unterminated class or a trailing
backslash make the pattern invalid, and `re.compile` (hence
`re.search`) raises `re.error` on it.  Passing this scan is necessary
but not sufficient for the pattern to compile; patterns that pass it
but contain metacharacters are outside the modelled fragment. -/
def parenScan : Nat → Bool → List Char → Bool
  | d, inClass, [] => d = 0 && !inClass
  | d, inClass, '\\' :: rest =>
    match rest with
    | [] => false
    | _ :: rest2 => parenScan d inClass rest2
  | d, inClass, c :: rest =>
    if inClass then
      if c = ']' then parenScan d false rest else parenScan d true rest
    else
      if c = '[' then parenScan d true rest
      else if c = '(' then parenScan (d + 1) false rest
      else if c = ')' then
        match d with
        | 0 => false
        | d' + 1 => parenScan d' false rest
      else parenScan d false rest

/-- A pattern passes the group/class scan. -/
def patternSyntaxOk (pat : List Char) : Bool := parenScan 0 false pat

/-- The oracle for the part of `re`'s behaviour the model leaves
abstract: field names that contain metacharacters yet still yield a
pattern passing the syntax scan compile to a regex the model does not
interpret (it may match other keys, or still raise for reasons beyond
the scan), so their search outcome — or raised error — is a
parameter.  The three components serve the string, list and bool
patterns. -/
structure ReFallbacks where
  strS : String → String → Except String (Option (List Char))
  listS : String → String → Except String (Option (List Char))
  boolS : String → String → Except String (Option Bool)

/-- Modelled from the stdlib: `re.search` of the interpolated
string-field pattern over the text.  A regex-safe field name is
matched literally by the lazy-capture scanner; a field making the
pattern fail the syntax scan raises `re.error`; any other field
defers to the oracle. -/
def reStrSearch (fbS : String → String → Except String (Option (List Char)))
    (field text : String) : Except String (Option (List Char)) :=
  if fieldRegexSafe field then Except.ok (reSearch (tryStrPat field.data) text.data)
  else if patternSyntaxOk (strFieldPattern field) then fbS field text
  else Except.error "re.error"

/-- Modelled from the stdlib: `re.search` of the interpolated
list-field pattern over the text. -/
def reListSearch (fbL : String → String → Except String (Option (List Char)))
    (field text : String) : Except String (Option (List Char)) :=
  if fieldRegexSafe field then Except.ok (reSearch (tryListPat field.data) text.data)
  else if patternSyntaxOk (listFieldPattern field) then fbL field text
  else Except.error "re.error"

/-- Modelled from the stdlib: `re.search` of the interpolated
bool-field pattern over the text. -/
def reBoolSearch (fbB : String → String → Except String (Option Bool))
    (field text : String) : Except String (Option Bool) :=
  if fieldRegexSafe field then Except.ok (reSearch (tryBoolPat field.data) text.data)
  else if patternSyntaxOk (boolFieldPattern field) then fbB field text
  else Except.error "re.error"

/-- The value stored for a `"string"` field from its search outcome:
the decoded capture, or `""` when the pattern matched nowhere. -/
def strValOf : Option (List Char) → PyVal
  | some cap => PyVal.str (safe_json_decode ⟨cap⟩)
  | Option.none => PyVal.str ""

/-- The value stored for a `"list"` field from its search outcome: the
decoded quoted items of the bracket capture, or `[]` when the pattern
matched nowhere. -/
def listValOf : Option (List Char) → PyVal
  | some raw => PyVal.list ((findallQuoted raw).map (fun i => PyVal.str (safe_json_decode ⟨i⟩)))
  | Option.none => PyVal.list []

/-- The value stored for a `"bool"` field from its search outcome: the
matched literal, or `False` when the pattern matched nowhere. -/
def boolValOf : Option Bool → PyVal
  | some b => PyVal.bool b
  | Option.none => PyVal.bool false

/-- The value a regex-safe `"string"` field receives. -/
def regexStrVal (field text : String) : PyVal :=
  strValOf (reSearch (tryStrPat field.data) text.data)

/-- The value a regex-safe `"list"` field receives. -/
def regexListVal (field text : String) : PyVal :=
  listValOf (reSearch (tryListPat field.data) text.data)

/-- The value a regex-safe `"bool"` field receives. -/
def regexBoolVal (field text : String) : PyVal :=
  boolValOf (reSearch (tryBoolPat field.data) text.data)

/-- The dict `extract_json_regex` builds when every field name is
regex-safe (so no pattern can raise): each field of a known type
contributes one entry, in schema order, and a field with an
unrecognised type contributes nothing (the source has no `else`
branch). -/
def extractJsonRegexSafe (text : String) (schema : List (String × String)) :
    List (String × PyVal) :=
  schema.filterMap (fun fp =>
    if fp.2 = "string" then some (fp.1, regexStrVal fp.1 text)
    else if fp.2 = "list" then some (fp.1, regexListVal fp.1 text)
    else if fp.2 = "bool" then some (fp.1, regexBoolVal fp.1 text)
    else Option.none)

/-- `extract_json_regex(text, schema)`: per-field regex scrape.  Each
known-kind field interpolates its name unescaped into a pattern and
runs `re.search`; a field whose pattern does not compile raises
`re.error`, aborting the whole call (`Except.error` — the source has no
handler).  Unknown kinds contribute nothing.  The external `re` engine
is modelled by `reStrSearch`/`reListSearch`/`reBoolSearch`: exact for
regex-safe field names and for syntactically invalid patterns,
deferred to the `fb` oracle otherwise. -/
def extract_json_regex (fb : ReFallbacks) (text : String) :
    List (String × String) → Except String (List (String × PyVal))
  | [] => Except.ok []
  | (field, ty) :: rest =>
    if ty = "string" then
      match reStrSearch fb.strS field text with
      | Except.error e => Except.error e
      | Except.ok m =>
        match extract_json_regex fb text rest with
        | Except.error e => Except.error e
        | Except.ok r => Except.ok ((field, strValOf m) :: r)
    else if ty = "list" then
      match reListSearch fb.listS field text with
      | Except.error e => Except.error e
      | Except.ok m =>
        match extract_json_regex fb text rest with
        | Except.error e => Except.error e
        | Except.ok r => Except.ok ((field, listValOf m) :: r)
    else if ty = "bool" then
      match reBoolSearch fb.boolS field text with
      | Except.error e => Except.error e
      | Except.ok m =>
        match extract_json_regex fb text rest with
        | Except.error e => Except.error e
        | Except.ok r => Except.ok ((field, boolValOf m) :: r)
    else extract_json_regex fb text rest

/-- An oracle instance for concrete examples that never reach the
unmodelled bucket. -/
def reFbNone : ReFallbacks :=
  { strS := fun _ _ => Except.ok Option.none,
    listS := fun _ _ => Except.ok Option.none,
    boolS := fun _ _ => Except.ok Option.none }

theorem alGet?_mem {α : Type} (m : List (String × α)) (k : String) (v : α)
    (h : alGet? m k = some v) : (k, v) ∈ m := by
  induction m with
  | nil => simp [alGet?] at h
  | cons p rest ih =>
    obtain ⟨k', v'⟩ := p
    by_cases hk : k' = k
    · simp [alGet?, hk] at h
      simp [hk, h]
    · simp [alGet?, hk] at h
      exact List.mem_cons_of_mem _ (ih h)

/-- The key list after a dict update: unchanged when the key exists,
extended at the end otherwise. -/
theorem alSet_keys {α : Type} (m : List (String × α)) (k : String) (v : α) :
    (alSet m k v).map Prod.fst =
      if k ∈ m.map Prod.fst then m.map Prod.fst else m.map Prod.fst ++ [k] := by
  induction m with
  | nil => simp [alSet]
  | cons p rest ih =>
    obtain ⟨k', v'⟩ := p
    by_cases hk : k' = k
    · simp [alSet, hk]
    · have hne : ¬(k = k') := fun h => hk h.symm
      by_cases hmem : k ∈ List.map Prod.fst rest
      · simp [alSet, hk, ih, hmem, hne]
      · simp [alSet, hk, ih, hmem, hne]

theorem mem_alSet_keys_of_mem {α : Type} (m : List (String × α)) (k : String)
    (v : α) (k' : String) (h : k' ∈ m.map Prod.fst) :
    k' ∈ (alSet m k v).map Prod.fst := by
  rw [alSet_keys]
  split
  · exact h
  · exact List.mem_append_left _ h

theorem self_mem_alSet_keys {α : Type} (m : List (String × α)) (k : String) (v : α) :
    k ∈ (alSet m k v).map Prod.fst := by
  rw [alSet_keys]
  split
  · assumption
  · simp

theorem alSet_keys_of_mem {α : Type} (m : List (String × α)) (k : String) (v : α)
    (h : k ∈ m.map Prod.fst) : (alSet m k v).map Prod.fst = m.map Prod.fst := by
  rw [alSet_keys, if_pos h]

/-- Every member of an updated dict is the new binding or an old one. -/
theorem alSet_subset {α : Type} (m : List (String × α)) (k : String) (v : α)
    (q : String × α) (hq : q ∈ alSet m k v) : q = (k, v) ∨ q ∈ m := by
  induction m with
  | nil => simpa [alSet] using hq
  | cons p rest ih =>
    obtain ⟨k', v'⟩ := p
    by_cases hk : k' = k
    · simp [alSet, hk] at hq
      rcases hq with hq | hq
      · left; exact hq
      · right; exact List.mem_cons_of_mem _ hq
    · simp [alSet, hk] at hq
      rcases hq with hq | hq
      · right; simp [hq]
      · rcases ih hq with h | h
        · left; exact h
        · right; exact List.mem_cons_of_mem _ h

theorem initRecord_fold_keys (l : MdSchema) :
    ∀ acc : Record,
      (∀ k, k ∈ acc.map Prod.fst →
        k ∈ ((l.foldl (fun r cfg => alSet r cfg.2.1 PyVal.none) acc).map Prod.fst)) ∧
      (∀ cfg ∈ l,
        cfg.2.1 ∈ ((l.foldl (fun r cfg => alSet r cfg.2.1 PyVal.none) acc).map Prod.fst)) := by
  induction l with
  | nil => intro acc; exact ⟨fun k h => h, by simp⟩
  | cons c rest ih =>
    intro acc
    constructor
    · intro k hk
      exact (ih (alSet acc c.2.1 PyVal.none)).1 k (mem_alSet_keys_of_mem _ _ _ _ hk)
    · intro cfg hcfg
      rcases List.mem_cons.mp hcfg with h | h
      · subst h
        exact (ih (alSet acc cfg.2.1 PyVal.none)).1 _ (self_mem_alSet_keys _ _ _)
      · exact (ih (alSet acc c.2.1 PyVal.none)).2 cfg h

/-- Every target key of the schema is a key of the initial record. -/
theorem initRecord_keys (schema : MdSchema) :
    ∀ cfg ∈ schema, cfg.2.1 ∈ (initRecord schema).map Prod.fst :=
  (initRecord_fold_keys schema []).2

theorem normSchema_fold_mem (l : List (String × String × String)) :
    ∀ acc, ∀ p ∈ l.foldl (fun m cfg => alSet m (pyLower cfg.1) cfg.2) acc,
      p ∈ acc ∨ ∃ c ∈ l, p = (pyLower c.1, c.2) := by
  induction l with
  | nil => intro acc p hp; exact Or.inl hp
  | cons c rest ih =>
    intro acc p hp
    simp only [List.foldl_cons] at hp
    rcases ih (alSet acc (pyLower c.1) c.2) p hp with h | h
    · rcases alSet_subset _ _ _ _ h with h' | h'
      · exact Or.inr ⟨c, List.mem_cons_self _ _, h'⟩
      · exact Or.inl h'
    · obtain ⟨c', hc', hp'⟩ := h
      exact Or.inr ⟨c', List.mem_cons_of_mem _ hc', hp'⟩

/-- Every value pair of the normalised header table comes from a
schema rule (with its header lower-cased). -/
theorem normSchema_vals (schema : MdSchema) :
    ∀ p ∈ normSchema schema, ∃ hd, (hd, p.2) ∈ schema := by
  intro p hp
  rcases normSchema_fold_mem schema [] p hp with h | h
  · exact absurd h (List.not_mem_nil _)
  · obtain ⟨c, hc, hp'⟩ := h
    refine ⟨c.1, ?_⟩
    have : p.2 = c.2 := by rw [hp']
    rw [this]
    exact hc

/-- `collectToken` never adds or removes keys when the active target is
already a key. -/
theorem collectToken_keys (jl : String → Option PyVal) (k ty : String)
    (tok : MdToken) (res : Record) (hk : k ∈ res.map Prod.fst) :
    (collectToken jl k ty tok res).map Prod.fst = res.map Prod.fst := by
  unfold collectToken
  split
  · match tok with
    | MdToken.inline c =>
      simp only
      split
      · exact alSet_keys_of_mem _ _ _ hk
      · exact alSet_keys_of_mem _ _ _ hk
      · rfl
    | MdToken.heading_open => rfl
    | MdToken.fence c => rfl
    | MdToken.other => rfl
  · split
    · match tok with
      | MdToken.fence c => exact alSet_keys_of_mem _ _ _ hk
      | MdToken.heading_open => rfl
      | MdToken.inline c => rfl
      | MdToken.other => rfl
    · split
      · match tok with
        | MdToken.fence c => exact alSet_keys_of_mem _ _ _ hk
        | MdToken.heading_open => rfl
        | MdToken.inline c => rfl
        | MdToken.other => rfl
      · rfl

/-- The section scan never adds or removes result keys, as long as the
lookup table only targets existing keys (which `normSchema` over the
`initRecord` guarantees). -/
theorem scanTokens_keys (jl : String → Option PyVal)
    (ns : List (String × String × String)) (toks : List MdToken) :
    ∀ (cur : Option (String × String)) (res : Record),
      (∀ p ∈ ns, p.2.1 ∈ res.map Prod.fst) →
      (∀ k ty, cur = some (k, ty) → k ∈ res.map Prod.fst) →
      (scanTokens jl ns toks cur res).map Prod.fst = res.map Prod.fst := by
  induction toks with
  | nil => intro cur res _ _; rfl
  | cons tok rest ih =>
    intro cur res hns hcur
    match tok with
    | MdToken.heading_open =>
      match rest with
      | MdToken.inline t :: _ =>
        simp only [scanTokens]
        cases hlook : alGet? ns (pyLower (pyStrip t)) with
        | none => exact ih Option.none res hns (by intro k ty h; cases h)
        | some tv =>
          refine ih (some tv) res hns ?_
          intro k ty h
          have hmem := alGet?_mem ns _ _ hlook
          have : tv = (k, ty) := by injection h
          subst this
          exact hns _ hmem
      | [] => exact ih cur res hns hcur
      | MdToken.heading_open :: _ => exact ih cur res hns hcur
      | MdToken.fence c :: _ => exact ih cur res hns hcur
      | MdToken.other :: _ => exact ih cur res hns hcur
    | MdToken.inline c =>
      match cur with
      | Option.none => exact ih Option.none res hns hcur
      | some (k, ty) =>
        simp only [scanTokens]
        split
        · exact ih (some (k, ty)) res hns hcur
        · have hmemk := hcur k ty rfl
          rw [ih (some (k, ty)) _
              (fun p hp => by rw [collectToken_keys jl k ty _ res hmemk]; exact hns p hp)
              (fun k' ty' h => by
                rw [collectToken_keys jl k ty _ res hmemk]
                have h2 : (k, ty) = (k', ty') := by injection h
                rw [← (Prod.mk.injEq _ _ _ _ |>.mp h2).1]
                exact hmemk)]
          exact collectToken_keys jl k ty _ res hmemk
    | MdToken.fence c =>
      match cur with
      | Option.none => exact ih Option.none res hns hcur
      | some (k, ty) =>
        simp only [scanTokens]
        split
        · exact ih (some (k, ty)) res hns hcur
        · have hmemk := hcur k ty rfl
          rw [ih (some (k, ty)) _
              (fun p hp => by rw [collectToken_keys jl k ty _ res hmemk]; exact hns p hp)
              (fun k' ty' h => by
                rw [collectToken_keys jl k ty _ res hmemk]
                have h2 : (k, ty) = (k', ty') := by injection h
                rw [← (Prod.mk.injEq _ _ _ _ |>.mp h2).1]
                exact hmemk)]
          exact collectToken_keys jl k ty _ res hmemk
    | MdToken.other =>
      match cur with
      | Option.none => exact ih Option.none res hns hcur
      | some (k, ty) =>
        simp only [scanTokens]
        split
        · exact ih (some (k, ty)) res hns hcur
        · have hmemk := hcur k ty rfl
          rw [ih (some (k, ty)) _
              (fun p hp => by rw [collectToken_keys jl k ty _ res hmemk]; exact hns p hp)
              (fun k' ty' h => by
                rw [collectToken_keys jl k ty _ res hmemk]
                have h2 : (k, ty) = (k', ty') := by injection h
                rw [← (Prod.mk.injEq _ _ _ _ |>.mp h2).1]
                exact hmemk)]
          exact collectToken_keys jl k ty _ res hmemk

/-- Every value of the initial record is `None`. -/
theorem initRecord_vals (schema : MdSchema) :
    ∀ p ∈ initRecord schema, p.2 = PyVal.none := by
  have gen : ∀ (l : MdSchema) (acc : Record),
      (∀ p ∈ acc, p.2 = PyVal.none) →
      ∀ p ∈ l.foldl (fun r cfg => alSet r cfg.2.1 PyVal.none) acc, p.2 = PyVal.none := by
    intro l
    induction l with
    | nil => intro acc hacc p hp; exact hacc p hp
    | cons c rest ih =>
      intro acc hacc p hp
      refine ih (alSet acc c.2.1 PyVal.none) ?_ p hp
      intro q hq
      rcases alSet_subset _ _ _ _ hq with h | h
      · rw [h]
      · exact hacc q h
  exact gen schema [] (fun p hp => absurd hp (List.not_mem_nil _))

/-- The key list of the extractor's result is exactly the key list of
the initial record, whatever the tokenizer, the JSON parser, the fuel
and the input text. -/
theorem parse_markdown_keys (mdParse : String → List MdToken)
    (jl : String → Option PyVal) (schema : MdSchema) (fuel : Nat) (llm : String) :
    (parse_markdown_with_schema mdParse jl schema fuel llm).map Prod.fst =
      (initRecord schema).map Prod.fst := by
  have hscan : ∀ t, (scanAll mdParse jl schema t).map Prod.fst =
      (initRecord schema).map Prod.fst := by
    intro t
    refine scanTokens_keys jl (normSchema schema) (mdParse t) Option.none
      (initRecord schema) ?_ (by intro k ty h; cases h)
    intro p hp
    obtain ⟨hd, hmem⟩ := normSchema_vals schema p hp
    exact initRecord_keys schema (hd, p.2) hmem
  induction fuel generalizing llm with
  | zero => exact hscan llm
  | succ n ih =>
    unfold parse_markdown_with_schema
    match h : mdParse llm with
    | [MdToken.fence inner] =>
      by_cases hp : peelSniff inner
      · simpa [hp] using ih inner
      · simpa [hp] using hscan llm
    | [] => exact hscan llm
    | MdToken.heading_open :: rest => exact hscan llm
    | MdToken.inline c :: rest => exact hscan llm
    | MdToken.other :: rest => exact hscan llm
    | MdToken.fence c :: t :: rest => exact hscan llm

/-- The extractor is the section scan (tier 2) applied to the peeled
text (tier 1): there are no further fallback tiers. -/
theorem parse_markdown_eq_scan_of_peel (mdParse : String → List MdToken)
    (jl : String → Option PyVal) (schema : MdSchema) (fuel : Nat) (llm : String) :
    parse_markdown_with_schema mdParse jl schema fuel llm =
      scanAll mdParse jl schema (peelText mdParse fuel llm) := by
  induction fuel generalizing llm with
  | zero => rfl
  | succ n ih =>
    unfold parse_markdown_with_schema peelText
    match h : mdParse llm with
    | [MdToken.fence inner] =>
      by_cases hp : peelSniff inner
      · simpa [hp] using ih inner
      · simp [hp]
    | [] => rfl
    | MdToken.heading_open :: rest => rfl
    | MdToken.inline c :: rest => rfl
    | MdToken.other :: rest => rfl
    | MdToken.fence c :: t :: rest => rfl

/-- Does the token stream contain a `heading_open` whose following
`inline` title resolves in the lookup table?  This is the condition
for the section scan to activate any field at all. -/
def anyMatchingHeading (ns : List (String × String × String)) : List MdToken → Bool
  | [] => false
  | MdToken.heading_open :: rest =>
    (match rest with
     | MdToken.inline t :: _ => (alGet? ns (pyLower (pyStrip t))).isSome
     | _ => false) || anyMatchingHeading ns rest
  | _ :: rest => anyMatchingHeading ns rest

theorem anyMatchingHeading_tail (ns : List (String × String × String))
    (x : MdToken) (rest : List MdToken)
    (h : anyMatchingHeading ns (x :: rest) = false) :
    anyMatchingHeading ns rest = false := by
  cases x with
  | heading_open =>
    simp only [anyMatchingHeading, Bool.or_eq_false_iff] at h
    exact h.2
  | inline c => exact h
  | fence c => exact h
  | other => exact h

theorem anyMatchingHeading_head (ns : List (String × String × String))
    (t : String) (tail : List MdToken)
    (h : anyMatchingHeading ns (MdToken.heading_open :: MdToken.inline t :: tail) = false) :
    alGet? ns (pyLower (pyStrip t)) = Option.none := by
  simp only [anyMatchingHeading, Bool.or_eq_false_iff] at h
  have h1 := h.1
  cases hl : alGet? ns (pyLower (pyStrip t)) with
  | none => rfl
  | some tv => rw [hl] at h1; simp at h1

/-- With no matching heading in the stream and no active field, the
section scan changes nothing: every field keeps its initial value. -/
theorem scanTokens_no_heading (jl : String → Option PyVal)
    (ns : List (String × String × String)) :
    ∀ (toks : List MdToken), anyMatchingHeading ns toks = false →
      ∀ res, scanTokens jl ns toks Option.none res = res := by
  intro toks
  induction toks with
  | nil => intro _ res; rfl
  | cons tok rest ih =>
    intro hnone res
    cases tok with
    | heading_open =>
      cases rest with
      | nil => rfl
      | cons t2 tail =>
        cases t2 with
        | inline t =>
          simp only [scanTokens]
          rw [anyMatchingHeading_head ns t tail hnone]
          exact ih (anyMatchingHeading_tail ns _ _ hnone) res
        | heading_open => exact ih (anyMatchingHeading_tail ns _ _ hnone) res
        | fence c => exact ih (anyMatchingHeading_tail ns _ _ hnone) res
        | other => exact ih (anyMatchingHeading_tail ns _ _ hnone) res
    | inline c => exact ih (anyMatchingHeading_tail ns _ _ hnone) res
    | fence c => exact ih (anyMatchingHeading_tail ns _ _ hnone) res
    | other => exact ih (anyMatchingHeading_tail ns _ _ hnone) res

/-- When every execution fails, every TEST arbitration says `REMAIN`
and every SOURCE arbitration says `VETO`, the loop runs its full fuel,
ends `EXHAUSTED`, and never touches either artifact. -/
theorem runAux_all_fail (exec : Nat → Bool) (tArb sArb : Nat → DebugFix)
    (hexec : ∀ k, exec k = false)
    (ht : ∀ i, (tArb i).decision = "REMAIN")
    (hs : ∀ i, (sArb i).decision = "VETO") :
    ∀ (n : Nat) (st : LoopSt),
      (runAux exec tArb sArb n st).2 = Outcome.EXHAUSTED ∧
      (runAux exec tArb sArb n st).1.loopCount = st.loopCount + n ∧
      (runAux exec tArb sArb n st).1.execCalls = st.execCalls + n ∧
      (runAux exec tArb sArb n st).1.codeContent = st.codeContent ∧
      (runAux exec tArb sArb n st).1.codeRev = st.codeRev ∧
      (runAux exec tArb sArb n st).1.testContent = st.testContent ∧
      (runAux exec tArb sArb n st).1.testRev = st.testRev := by
  intro n
  induction n with
  | zero => intro st; exact ⟨rfl, rfl, rfl, rfl, rfl, rfl, rfl⟩
  | succ m ih =>
    intro st
    cases m with
    | zero =>
      simp only [runAux, hexec]
      exact ⟨rfl, rfl, rfl, rfl, rfl, rfl, rfl⟩
    | succ m' =>
      have hstep : testStep exec tArb
          { st with
              loopCount := st.loopCount + 1,
              execCalls := st.execCalls + 1 } =
          Sum.inr { st with
              loopCount := st.loopCount + 1,
              execCalls := st.execCalls + 1,
              testArbCalls := st.testArbCalls + 1 } := by
        unfold testStep
        rw [ht]
        rw [if_neg (by decide), if_pos rfl]
      have hsrc : srcStep sArb
          { st with
              loopCount := st.loopCount + 1,
              execCalls := st.execCalls + 1,
              testArbCalls := st.testArbCalls + 1 } =
          Sum.inr { st with
              loopCount := st.loopCount + 1,
              execCalls := st.execCalls + 1,
              testArbCalls := st.testArbCalls + 1,
              srcArbCalls := st.srcArbCalls + 1 } := by
        unfold srcStep
        rw [hs]
        rw [if_neg (by decide), if_pos rfl]
      have hrun : runAux exec tArb sArb (m' + 1 + 1) st =
          runAux exec tArb sArb (m' + 1)
            { st with
                loopCount := st.loopCount + 1,
                execCalls := st.execCalls + 1,
                testArbCalls := st.testArbCalls + 1,
                srcArbCalls := st.srcArbCalls + 1 } := by
        simp only [runAux]
        rw [hexec, if_neg (by decide), if_neg (Nat.succ_ne_zero m'), hstep]
        dsimp only
        rw [hsrc]
      rw [hrun]
      obtain ⟨h1, h2, h3, h4, h5, h6, h7⟩ := ih
        { st with
            loopCount := st.loopCount + 1,
            execCalls := st.execCalls + 1,
            testArbCalls := st.testArbCalls + 1,
            srcArbCalls := st.srcArbCalls + 1 }
      refine ⟨h1, ?_, ?_, h4, h5, h6, h7⟩
      · rw [h2]; dsimp only; omega
      · rw [h3]; dsimp only; omega

/-- Claim C1, counterexample: on input `"hello"` (no sections at all)
the extractor leaves the `reasoning` entry of the coder schema at
`None` — not at the empty string the claim requires for a failed text
field. -/
theorem c1_counterexample :
    dictGet (parse_markdown_with_schema mdTokenize jloadsNone coderSchema 8 "hello")
        "reasoning" = PyVal.none ∧
    PyVal.none ≠ PyVal.str "" :=
  ⟨rfl, fun h => PyVal.noConfusion h⟩

/-- Claim C1, amended: for every tokenizer, JSON parser, schema, fuel
and input text, the extractor returns (it is a total function) a record
whose keys are exactly the keys of the initial record, so every
declared field has an entry; but a field that extraction never filled
holds `None` — the initial value of every field — rather than the
empty value of its declared kind (on an input with no tokens the whole
record is the all-`None` initial record). -/
theorem c1_every_field_present (mdParse : String → List MdToken)
    (jl : String → Option PyVal) (schema : MdSchema) (fuel : Nat) (llm : String) :
    (parse_markdown_with_schema mdParse jl schema fuel llm).map Prod.fst =
      (initRecord schema).map Prod.fst ∧
    (∀ cfg ∈ schema,
      cfg.2.1 ∈ (parse_markdown_with_schema mdParse jl schema fuel llm).map Prod.fst) ∧
    (∀ p ∈ initRecord schema, p.2 = PyVal.none) ∧
    parse_markdown_with_schema mdTokenize jl schema fuel "" = initRecord schema := by
  refine ⟨parse_markdown_keys mdParse jl schema fuel llm, ?_, initRecord_vals schema, ?_⟩
  · intro cfg h
    rw [parse_markdown_keys]
    exact initRecord_keys schema cfg h
  · cases fuel with
    | zero => rfl
    | succ n => rfl

/-- Claim C1, witness for the amended theorem at the coder schema. -/
theorem c1_witness :
    ("Content", "content", "code") ∈ coderSchema ∧
    "content" ∈ (parse_markdown_with_schema mdTokenize jloadsNone coderSchema 3 "x").map
      Prod.fst :=
  ⟨by decide,
   (c1_every_field_present mdTokenize jloadsNone coderSchema 3 "x").2.1
     ("Content", "content", "code") (by decide)⟩

/-- The whole-text structured-data document of claim C7's
counterexample, and a `json.loads` stand-in that parses it. -/
def c7text : String := "\x7b\"reasoning\": \"a\", \"content\": \"b\"\x7d"

/-- Models `json.loads` succeeding on `c7text` (it is valid JSON) and
failing elsewhere. -/
def jloadsC7 : String → Option PyVal := fun s =>
  if s = c7text then
    some (PyVal.dict [("reasoning", PyVal.str "a"), ("content", PyVal.str "b")])
  else Option.none

/-- Claim C7, counterexample: the input is exactly one structured-data
document (the section scan finds nothing), its top-level key
`reasoning` holds `"a"`, and the JSON parser in scope can parse it —
yet the extractor leaves `reasoning` at `None`: no whole-text
structured-data tier exists. -/
theorem c7_counterexample :
    jloadsC7 c7text =
      some (PyVal.dict [("reasoning", PyVal.str "a"), ("content", PyVal.str "b")]) ∧
    dictGet (parse_markdown_with_schema mdTokenize jloadsC7 coderSchema 8 c7text)
        "reasoning" = PyVal.none ∧
    PyVal.none ≠ PyVal.str "a" :=
  ⟨rfl, rfl, fun h => PyVal.noConfusion h⟩

/-- Claim C7, amended: the fallback tiers run in order and a lower tier
runs only on an incomplete result holds in the degenerate sense that
tiers 3 (whole-text structured-data parse) and 4 (regex scrape) do not
exist: extraction is exactly the section scan applied to the peeled
text, and when the section scan finds no declared heading at all the
result is the untouched all-`None` initial record — the text is never
parsed as one structured-data document. -/
theorem c7_tiers_in_order (mdParse : String → List MdToken)
    (jl : String → Option PyVal) (schema : MdSchema) (fuel : Nat) (llm : String) :
    parse_markdown_with_schema mdParse jl schema fuel llm =
      scanAll mdParse jl schema (peelText mdParse fuel llm) ∧
    (anyMatchingHeading (normSchema schema) (mdParse (peelText mdParse fuel llm)) = false →
      parse_markdown_with_schema mdParse jl schema fuel llm = initRecord schema) := by
  refine ⟨parse_markdown_eq_scan_of_peel mdParse jl schema fuel llm, ?_⟩
  intro h
  rw [parse_markdown_eq_scan_of_peel mdParse jl schema fuel llm]
  exact scanTokens_no_heading jl (normSchema schema) (mdParse (peelText mdParse fuel llm)) h
    (initRecord schema)

/-- Claim C7, witness: a plain prose input has no matching heading, and
extraction returns the initial record. -/
theorem c7_witness :
    anyMatchingHeading (normSchema coderSchema)
      (mdTokenize (peelText mdTokenize 3 "plain body")) = false ∧
    parse_markdown_with_schema mdTokenize jloadsNone coderSchema 3 "plain body" =
      initRecord coderSchema :=
  ⟨rfl, (c7_tiers_in_order mdTokenize jloadsNone coderSchema 3 "plain body").2 rfl⟩

/-- Claim C8: wrapper peeling is idempotent.  When the token stream is
not a lone fenced block whose interior contains a declared section
header (the source sniffs for `"## Reasoning"`/`"## Content"`),
extraction equals the plain section scan — the same record as
attempting the peel and declining it; and when the peel does fire,
extraction of the whole equals extraction of the interior, so
re-running extraction on an already-peeled interior yields the same
record as peeling once. -/
theorem c8_peel_idempotent (mdParse : String → List MdToken)
    (jl : String → Option PyVal) (schema : MdSchema) (fuel : Nat) (llm : String) :
    ((∀ inner, mdParse llm = [MdToken.fence inner] → peelSniff inner = false) →
      parse_markdown_with_schema mdParse jl schema fuel llm =
        scanAll mdParse jl schema llm) ∧
    (∀ inner, mdParse llm = [MdToken.fence inner] → peelSniff inner = true →
      parse_markdown_with_schema mdParse jl schema (fuel + 1) llm =
        parse_markdown_with_schema mdParse jl schema fuel inner) := by
  constructor
  · intro h
    cases fuel with
    | zero => rfl
    | succ n =>
      simp only [parse_markdown_with_schema]
      split
      · next inner heq => rw [h inner heq]; simp
      · rfl
  · intro inner hm hs
    simp only [parse_markdown_with_schema]
    rw [hm]
    simp [hs]

/-- Claim C8, witness: a headed document is not a lone fence, so
extraction equals the plain scan; wrapping it in one fence makes the
peel fire, and extracting the wrapped text equals extracting its
interior. -/
theorem c8_witness :
    parse_markdown_with_schema mdTokenize jloadsNone coderSchema 4 "## Reasoning\nok" =
      scanAll mdTokenize jloadsNone coderSchema "## Reasoning\nok" ∧
    mdTokenize "```\n## Reasoning\nok\n```" = [MdToken.fence "## Reasoning\nok\n"] ∧
    peelSniff "## Reasoning\nok\n" = true ∧
    parse_markdown_with_schema mdTokenize jloadsNone coderSchema 5 "```\n## Reasoning\nok\n```" =
      parse_markdown_with_schema mdTokenize jloadsNone coderSchema 4 "## Reasoning\nok\n" := by
  refine ⟨?_, rfl, rfl, ?_⟩
  · refine (c8_peel_idempotent mdTokenize jloadsNone coderSchema 4 "## Reasoning\nok").1 ?_
    intro inner h
    have hteq : mdTokenize "## Reasoning\nok" =
        [MdToken.heading_open, MdToken.inline "Reasoning", MdToken.other,
         MdToken.other, MdToken.inline "ok", MdToken.other] := rfl
    rw [hteq] at h
    injection h with h1 h2
    exact MdToken.noConfusion h1
  · exact (c8_peel_idempotent mdTokenize jloadsNone coderSchema 4
      "```\n## Reasoning\nok\n```").2 "## Reasoning\nok\n" rfl rfl

/-- Did the computation return normally (`ok`) rather than stop with
an uncaught exception (`error`)? -/
def exceptIsOk {ε α : Type} : Except ε α → Bool
  | Except.ok _ => true
  | Except.error _ => false

/-- The concrete response of claim C5's counterexample: a present but
empty `Content` fence and a `Metadata` fence that is not valid JSON
(this string is a fixed point of the cleaners' preprocessing). -/
def c5llm : String := "## Content\n```\n```\n## Metadata\n```\nnotjson!\n```"

/-- Claim C5, counterexample: with the primary content field still
empty after extraction, `cleaner_source_code` returns normally with the
empty content (it does not surface any failure), and
`cleaner_test_case` additionally manufactures the defaulted filename
`"test.py"` — the run proceeds with an empty, defaulted artifact
instead of stopping. -/
theorem c5_counterexample :
    cleaner_source_code mdTokenize jloadsNone 8 c5llm =
      Except.ok [("content", PyVal.str "")] ∧
    pyTruthy (dictGet [("content", PyVal.str "")] "content") = false ∧
    cleaner_test_case mdTokenize jloadsNone 8 c5llm =
      Except.ok [("content", PyVal.str ""), ("reasoning", PyVal.none),
                 ("filename", PyVal.str "test.py")] :=
  ⟨rfl, rfl, rfl⟩

/-- Claim C5, amended: the source cleaner stops the run (with an
uncaught `TypeError`, not a structured `ParseFailure`) only when the
content field extracted to `None` or the metadata is not a dict; when
the content extracted to a string — even the empty string — and the
metadata is a dict, it returns normally.  The test cleaner stops only
when the metadata is not a dict; whenever the metadata is a dict it
returns normally regardless of the content, defaulting a missing or
empty filename to `"test.py"`. -/
theorem c5_required_field_check (mdParse : String → List MdToken)
    (jl : String → Option PyVal) (fuel : Nat) (llm : String) :
    (dictGet (parse_markdown_with_schema mdParse jl coderSchema fuel (cleanerPre llm))
        "content" = PyVal.none →
      cleaner_source_code mdParse jl fuel llm = Except.error "TypeError") ∧
    (∀ s d,
      dictGet (parse_markdown_with_schema mdParse jl coderSchema fuel (cleanerPre llm))
          "content" = PyVal.str s →
      dictGet (parse_markdown_with_schema mdParse jl coderSchema fuel (cleanerPre llm))
          "metadata" = PyVal.dict d →
      cleaner_source_code mdParse jl fuel llm = Except.ok (alSet d "content" (PyVal.str s))) ∧
    (dictGet (parse_markdown_with_schema mdParse jl testSchema fuel (cleanerPre llm))
        "metadata" = PyVal.none →
      cleaner_test_case mdParse jl fuel llm = Except.error "AttributeError") ∧
    (∀ d,
      dictGet (parse_markdown_with_schema mdParse jl testSchema fuel (cleanerPre llm))
          "metadata" = PyVal.dict d →
      exceptIsOk (cleaner_test_case mdParse jl fuel llm) = true) := by
  refine ⟨?_, ?_, ?_, ?_⟩
  · intro h
    simp only [cleaner_source_code]
    rw [h]
  · intro s d hs hd
    simp only [cleaner_source_code]
    rw [hs, hd]
  · intro h
    simp only [cleaner_test_case]
    rw [h]
  · intro d hd
    simp only [cleaner_test_case]
    rw [hd]
    have hok : ∀ (c : Prop) (inst : Decidable c) (a b : List (String × PyVal)),
        exceptIsOk
          (if c then (Except.ok a : Except String (List (String × PyVal)))
           else Except.ok b) = true := by
      intro c inst a b
      by_cases h : c
      · rw [if_pos h]; rfl
      · rw [if_neg h]; rfl
    exact hok _ _ _ _

/-- Claim C5, witness: on a sectionless response the content extracts
to `None` and both cleaners stop by crashing. -/
theorem c5_witness :
    dictGet (parse_markdown_with_schema mdTokenize jloadsNone coderSchema 6
        (cleanerPre "hello")) "content" = PyVal.none ∧
    cleaner_source_code mdTokenize jloadsNone 6 "hello" = Except.error "TypeError" ∧
    cleaner_test_case mdTokenize jloadsNone 6 "hello" = Except.error "AttributeError" :=
  ⟨rfl, (c5_required_field_check mdTokenize jloadsNone 6 "hello").1 rfl,
   (c5_required_field_check mdTokenize jloadsNone 6 "hello").2.2.1 rfl⟩

/-- Claim C2: when every EXECUTE call (including any mid-iteration
re-execute) reports `passed = false`, every TEST arbitration decision
is `REMAIN` and every SOURCE arbitration decision is `VETO`, the loop
terminates `EXHAUSTED` after exactly `N` iterations, with exactly `N`
executions and both artifacts (content and revision) unchanged from
their state after `GENERATE_TEST`. -/
theorem c2_exhausted_after_budget (N : Nat) (exec : Nat → Bool)
    (tArb sArb : Nat → DebugFix) (code test : PyVal)
    (hexec : ∀ k, exec k = false)
    (ht : ∀ i, (tArb i).decision = "REMAIN")
    (hs : ∀ i, (sArb i).decision = "VETO") :
    (runLoop N exec tArb sArb code test).2 = Outcome.EXHAUSTED ∧
    (runLoop N exec tArb sArb code test).1.loopCount = N ∧
    (runLoop N exec tArb sArb code test).1.execCalls = N ∧
    (runLoop N exec tArb sArb code test).1.codeContent = code ∧
    (runLoop N exec tArb sArb code test).1.codeRev = 0 ∧
    (runLoop N exec tArb sArb code test).1.testContent = test ∧
    (runLoop N exec tArb sArb code test).1.testRev = 0 := by
  obtain ⟨h1, h2, h3, h4, h5, h6, h7⟩ :=
    runAux_all_fail exec tArb sArb hexec ht hs N (initSt code test)
  unfold runLoop
  refine ⟨h1, ?_, ?_, h4, h5, h6, h7⟩
  · rw [h2]; dsimp [initSt]; omega
  · rw [h3]; dsimp [initSt]; omega

/-- The constant streams of claim C2's witness: every execution fails,
every TEST arbitration remains, every SOURCE arbitration vetoes. -/
def execAllFail : Nat → Bool := fun _ => false

/-- A TEST arbitration stream that always answers `REMAIN`. -/
def tArbRemain : Nat → DebugFix := fun _ => { decision := "REMAIN", file_content := PyVal.none }

/-- A SOURCE arbitration stream that always answers `VETO`. -/
def sArbVeto : Nat → DebugFix := fun _ => { decision := "VETO", file_content := PyVal.none }

/-- Claim C2, witness at `N = 3` (the spec's scenario). -/
theorem c2_witness :
    (runLoop 3 execAllFail tArbRemain sArbVeto (PyVal.str "S") (PyVal.str "T")).2 =
      Outcome.EXHAUSTED ∧
    (runLoop 3 execAllFail tArbRemain sArbVeto (PyVal.str "S") (PyVal.str "T")).1.loopCount = 3 ∧
    (runLoop 3 execAllFail tArbRemain sArbVeto (PyVal.str "S") (PyVal.str "T")).1.execCalls = 3 ∧
    (runLoop 3 execAllFail tArbRemain sArbVeto (PyVal.str "S") (PyVal.str "T")).1.codeContent =
      PyVal.str "S" ∧
    (runLoop 3 execAllFail tArbRemain sArbVeto (PyVal.str "S") (PyVal.str "T")).1.codeRev = 0 ∧
    (runLoop 3 execAllFail tArbRemain sArbVeto (PyVal.str "S") (PyVal.str "T")).1.testContent =
      PyVal.str "T" ∧
    (runLoop 3 execAllFail tArbRemain sArbVeto (PyVal.str "S") (PyVal.str "T")).1.testRev = 0 :=
  c2_exhausted_after_budget 3 execAllFail tArbRemain sArbVeto (PyVal.str "S") (PyVal.str "T")
    (fun _ => rfl) (fun _ => rfl) (fun _ => rfl)

/-- Claim C6: a `REMAIN` or `VETO` verdict leaves the targeted
artifact's revision and content (indeed the entire state except the
arbitration counter) unchanged, and a `FIX` verdict increments the
targeted artifact's revision and replaces its content exactly with the
verdict's replacement content, leaving the other artifact untouched.
The revision counters are the spec's audit metadata, modelled onto the
source's content-replacement sites (lines 767-777 and 811-821). -/
theorem c6_verdict_effects (exec : Nat → Bool) (tArb sArb : Nat → DebugFix) (st : LoopSt) :
    ((tArb st.testArbCalls).decision = "REMAIN" →
      testStep exec tArb st = Sum.inr { st with testArbCalls := st.testArbCalls + 1 }) ∧
    ((sArb st.srcArbCalls).decision = "VETO" →
      srcStep sArb st = Sum.inr { st with srcArbCalls := st.srcArbCalls + 1 }) ∧
    ((tArb st.testArbCalls).decision = "FIX" →
      (stepState (testStep exec tArb st)).testRev = st.testRev + 1 ∧
      (stepState (testStep exec tArb st)).testContent = (tArb st.testArbCalls).file_content ∧
      (stepState (testStep exec tArb st)).codeContent = st.codeContent ∧
      (stepState (testStep exec tArb st)).codeRev = st.codeRev) ∧
    ((sArb st.srcArbCalls).decision = "FIX" →
      srcStep sArb st = Sum.inr { st with
          srcArbCalls := st.srcArbCalls + 1,
          codeContent := (sArb st.srcArbCalls).file_content,
          codeRev := st.codeRev + 1 }) := by
  refine ⟨?_, ?_, ?_, ?_⟩
  · intro h
    unfold testStep
    rw [h, if_neg (by decide), if_pos rfl]
  · intro h
    unfold srcStep
    rw [h, if_neg (by decide), if_pos rfl]
  · intro h
    unfold testStep
    rw [h, if_pos rfl]
    by_cases he : exec st.execCalls
    · rw [if_pos he]
      exact ⟨rfl, rfl, rfl, rfl⟩
    · rw [if_neg he]
      exact ⟨rfl, rfl, rfl, rfl⟩
  · intro h
    unfold srcStep
    rw [h, if_pos rfl]

/-- Claim C6, witness: a concrete state and concrete verdict streams. -/
def c6state : LoopSt :=
  { codeContent := PyVal.str "S", codeRev := 4, testContent := PyVal.str "T", testRev := 2,
    loopCount := 1, execCalls := 2, testArbCalls := 1, srcArbCalls := 1 }

/-- A SOURCE arbitration stream that always answers `FIX` with a fixed
replacement. -/
def sArbFix : Nat → DebugFix := fun _ => { decision := "FIX", file_content := PyVal.str "S2" }

/-- Claim C6, witness: `REMAIN` leaves the state untouched except the
counter, `FIX` on SOURCE bumps the revision and installs the
replacement content. -/
theorem c6_witness :
    testStep execAllFail tArbRemain c6state =
      Sum.inr { c6state with testArbCalls := c6state.testArbCalls + 1 } ∧
    srcStep sArbFix c6state =
      Sum.inr { c6state with
          srcArbCalls := c6state.srcArbCalls + 1,
          codeContent := PyVal.str "S2",
          codeRev := c6state.codeRev + 1 } :=
  ⟨(c6_verdict_effects execAllFail tArbRemain sArbFix c6state).1 rfl,
   (c6_verdict_effects execAllFail tArbRemain sArbFix c6state).2.2.2 rfl⟩

/-- Claim C4: within an iteration, a TEST `FIX` verdict replaces the
TEST content and immediately re-executes before SOURCE arbitration:
if that re-execution passes, the run ends `SUCCESS` in iteration 1
with the new TEST content, zero SOURCE-arbitration calls, and a result
independent of the SOURCE arbitration stream (it is never consulted);
a `REMAIN` verdict hands the unchanged state (same execution count, so
no re-execute) straight to SOURCE arbitration. -/
theorem c4_fix_reexecutes (N : Nat) (exec : Nat → Bool)
    (tArb sArb sArb' : Nat → DebugFix) (code test c : PyVal)
    (hN : 2 ≤ N) (h0 : exec 0 = false) :
    ((tArb 0).decision = "FIX" → (tArb 0).file_content = c → exec 1 = true →
      (runLoop N exec tArb sArb code test).2 = Outcome.SUCCESS ∧
      (runLoop N exec tArb sArb code test).1.loopCount = 1 ∧
      (runLoop N exec tArb sArb code test).1.testContent = c ∧
      (runLoop N exec tArb sArb code test).1.testRev = 1 ∧
      (runLoop N exec tArb sArb code test).1.execCalls = 2 ∧
      (runLoop N exec tArb sArb code test).1.srcArbCalls = 0 ∧
      runLoop N exec tArb sArb code test = runLoop N exec tArb sArb' code test) ∧
    (∀ st : LoopSt, (tArb st.testArbCalls).decision = "REMAIN" →
      testStep exec tArb st = Sum.inr { st with testArbCalls := st.testArbCalls + 1 }) := by
  constructor
  · intro hfix hc h1
    obtain ⟨k, rfl⟩ : ∃ k, N = k + 1 + 1 := ⟨N - 2, by omega⟩
    have key : ∀ sA : Nat → DebugFix,
        runLoop (k + 1 + 1) exec tArb sA code test =
          ({ codeContent := code, codeRev := 0, testContent := c, testRev := 1,
             loopCount := 1, execCalls := 2, testArbCalls := 1, srcArbCalls := 0 },
           Outcome.SUCCESS) := by
      intro sA
      have hstep : testStep exec tArb
          { codeContent := code, codeRev := 0, testContent := test, testRev := 0,
            loopCount := 1, execCalls := 1, testArbCalls := 0, srcArbCalls := 0 } =
          Sum.inl ({ codeContent := code, codeRev := 0, testContent := c, testRev := 1,
                     loopCount := 1, execCalls := 2, testArbCalls := 1, srcArbCalls := 0 },
                   Outcome.SUCCESS) := by
        unfold testStep
        rw [hfix, if_pos rfl, h1, if_pos rfl, hc]
      simp only [runLoop, initSt, runAux]
      rw [h0, if_neg (by decide), if_neg (Nat.succ_ne_zero k)]
      simp only [Nat.zero_add]
      rw [hstep]
    rw [key sArb, key sArb']
    exact ⟨rfl, rfl, rfl, rfl, rfl, rfl, rfl⟩
  · intro st h
    unfold testStep
    rw [h, if_neg (by decide), if_pos rfl]

/-- The execution stream of claim C4's witness: the first run fails,
the re-run after the test fix passes. -/
def execFailThenPass : Nat → Bool := fun k => !(k = 0)

/-- A TEST arbitration stream that always answers `FIX` with a fixed
replacement test. -/
def tArbFix : Nat → DebugFix := fun _ => { decision := "FIX", file_content := PyVal.str "T2" }

/-- Claim C4, witness at `N = 3`: the run ends `SUCCESS` in iteration 1
with the replaced TEST and no SOURCE arbitration call, whatever the
SOURCE stream would have answered. -/
theorem c4_witness :
    (runLoop 3 execFailThenPass tArbFix sArbVeto (PyVal.str "S") (PyVal.str "T")).2 =
      Outcome.SUCCESS ∧
    (runLoop 3 execFailThenPass tArbFix sArbVeto (PyVal.str "S") (PyVal.str "T")).1.loopCount = 1 ∧
    (runLoop 3 execFailThenPass tArbFix sArbVeto (PyVal.str "S") (PyVal.str "T")).1.testContent =
      PyVal.str "T2" ∧
    (runLoop 3 execFailThenPass tArbFix sArbVeto (PyVal.str "S") (PyVal.str "T")).1.testRev = 1 ∧
    (runLoop 3 execFailThenPass tArbFix sArbVeto (PyVal.str "S") (PyVal.str "T")).1.execCalls = 2 ∧
    (runLoop 3 execFailThenPass tArbFix sArbVeto (PyVal.str "S") (PyVal.str "T")).1.srcArbCalls = 0 ∧
    runLoop 3 execFailThenPass tArbFix sArbVeto (PyVal.str "S") (PyVal.str "T") =
      runLoop 3 execFailThenPass tArbFix sArbFix (PyVal.str "S") (PyVal.str "T") :=
  (c4_fix_reexecutes 3 execFailThenPass tArbFix sArbVeto sArbFix
    (PyVal.str "S") (PyVal.str "T") (PyVal.str "T2") (by decide) rfl).1 rfl rfl rfl

/-- Claim C3: an arbitration decision whose normalised text (upper-
cased, emphasis markers stripped) contains none of the allowed tokens
is passed through by the cleaner (so it equals none of the recognised
decisions and `main` classifies it `UNKNOWN`), the corresponding step
stops the loop with `ABORTED` while changing neither artifact nor its
revision, and a run hitting such a TEST decision in its first
iteration ends `ABORTED` with both artifacts untouched — no default
decision is substituted and no content change is applied. -/
theorem c3_unknown_aborts (rawT rawS : String)
    (hFt : strContains "FIX" (normalizeDecisionText rawT) = false)
    (hRt : strContains "REMAIN" (normalizeDecisionText rawT) = false)
    (hFs : strContains "FIX" (normalizeDecisionText rawS) = false)
    (hVs : strContains "VETO" (normalizeDecisionText rawS) = false) :
    mainTestDecision (cleaner_debug_test_decision rawT) = ArbDecision.UNKNOWN ∧
    mainSourceDecision (cleaner_debug_source_decision rawS) = ArbDecision.UNKNOWN ∧
    (∀ (exec : Nat → Bool) (tArb : Nat → DebugFix) (st : LoopSt),
      (tArb st.testArbCalls).decision = cleaner_debug_test_decision rawT →
      testStep exec tArb st =
        Sum.inl ({ st with testArbCalls := st.testArbCalls + 1 }, Outcome.ABORTED)) ∧
    (∀ (sArb : Nat → DebugFix) (st : LoopSt),
      (sArb st.srcArbCalls).decision = cleaner_debug_source_decision rawS →
      srcStep sArb st =
        Sum.inl ({ st with srcArbCalls := st.srcArbCalls + 1 }, Outcome.ABORTED)) ∧
    (∀ (N : Nat) (exec : Nat → Bool) (tArb sArb : Nat → DebugFix) (code test : PyVal),
      2 ≤ N → exec 0 = false →
      (tArb 0).decision = cleaner_debug_test_decision rawT →
      (runLoop N exec tArb sArb code test).2 = Outcome.ABORTED ∧
      (runLoop N exec tArb sArb code test).1.codeContent = code ∧
      (runLoop N exec tArb sArb code test).1.codeRev = 0 ∧
      (runLoop N exec tArb sArb code test).1.testContent = test ∧
      (runLoop N exec tArb sArb code test).1.testRev = 0) := by
  have hcleanT : cleaner_debug_test_decision rawT = normalizeDecisionText rawT := by
    unfold cleaner_debug_test_decision
    dsimp only
    rw [hFt, hRt]
    rfl
  have hcleanS : cleaner_debug_source_decision rawS = normalizeDecisionText rawS := by
    unfold cleaner_debug_source_decision
    dsimp only
    rw [hFs, hVs]
    rfl
  have hTfix : cleaner_debug_test_decision rawT ≠ "FIX" := by
    rw [hcleanT]
    intro h
    rw [h] at hFt
    rw [strContains_refl] at hFt
    exact Bool.noConfusion hFt
  have hTrem : cleaner_debug_test_decision rawT ≠ "REMAIN" := by
    rw [hcleanT]
    intro h
    rw [h] at hRt
    rw [strContains_refl] at hRt
    exact Bool.noConfusion hRt
  have hSfix : cleaner_debug_source_decision rawS ≠ "FIX" := by
    rw [hcleanS]
    intro h
    rw [h] at hFs
    rw [strContains_refl] at hFs
    exact Bool.noConfusion hFs
  have hSveto : cleaner_debug_source_decision rawS ≠ "VETO" := by
    rw [hcleanS]
    intro h
    rw [h] at hVs
    rw [strContains_refl] at hVs
    exact Bool.noConfusion hVs
  have htest : ∀ (exec : Nat → Bool) (tArb : Nat → DebugFix) (st : LoopSt),
      (tArb st.testArbCalls).decision = cleaner_debug_test_decision rawT →
      testStep exec tArb st =
        Sum.inl ({ st with testArbCalls := st.testArbCalls + 1 }, Outcome.ABORTED) := by
    intro exec tArb st hdec
    unfold testStep
    rw [hdec, if_neg hTfix, if_neg hTrem]
  have hsrc : ∀ (sArb : Nat → DebugFix) (st : LoopSt),
      (sArb st.srcArbCalls).decision = cleaner_debug_source_decision rawS →
      srcStep sArb st =
        Sum.inl ({ st with srcArbCalls := st.srcArbCalls + 1 }, Outcome.ABORTED) := by
    intro sArb st hdec
    unfold srcStep
    rw [hdec, if_neg hSfix, if_neg hSveto]
  refine ⟨?_, ?_, htest, hsrc, ?_⟩
  · unfold mainTestDecision
    rw [if_neg hTfix, if_neg hTrem]
  · unfold mainSourceDecision
    rw [if_neg hSfix, if_neg hSveto]
  · intro N exec tArb sArb code test hN h0 hdec
    obtain ⟨k, rfl⟩ : ∃ k, N = k + 1 + 1 := ⟨N - 2, by omega⟩
    have hstep := htest exec tArb
      { codeContent := code, codeRev := 0, testContent := test, testRev := 0,
        loopCount := 1, execCalls := 1, testArbCalls := 0, srcArbCalls := 0 } hdec
    have hrun : runLoop (k + 1 + 1) exec tArb sArb code test =
        ({ codeContent := code, codeRev := 0, testContent := test, testRev := 0,
           loopCount := 1, execCalls := 1, testArbCalls := 1, srcArbCalls := 0 },
         Outcome.ABORTED) := by
      simp only [runLoop, initSt, runAux]
      rw [h0, if_neg (by decide), if_neg (Nat.succ_ne_zero k)]
      simp only [Nat.zero_add]
      rw [hstep]
    rw [hrun]
    exact ⟨rfl, rfl, rfl, rfl, rfl⟩

/-- A TEST arbitration stream whose decision text normalises to a
token containing neither `FIX` nor `REMAIN`. -/
def tArbSkip : Nat → DebugFix := fun _ => { decision := cleaner_debug_test_decision "skip this one", file_content := PyVal.none }

/-- Claim C3, witness: the decision text `"skip this one"` is
classified `UNKNOWN`, and a concrete run hitting it in iteration 1
aborts with the artifacts untouched. -/
theorem c3_witness :
    mainTestDecision (cleaner_debug_test_decision "skip this one") = ArbDecision.UNKNOWN ∧
    (runLoop 3 execAllFail tArbSkip sArbVeto (PyVal.str "S") (PyVal.str "T")).2 =
      Outcome.ABORTED ∧
    (runLoop 3 execAllFail tArbSkip sArbVeto (PyVal.str "S") (PyVal.str "T")).1.codeContent =
      PyVal.str "S" ∧
    (runLoop 3 execAllFail tArbSkip sArbVeto (PyVal.str "S") (PyVal.str "T")).1.testContent =
      PyVal.str "T" :=
  ⟨(c3_unknown_aborts "skip this one" "skip this one" rfl rfl rfl rfl).1,
   ((c3_unknown_aborts "skip this one" "skip this one" rfl rfl rfl rfl).2.2.2.2
     3 execAllFail tArbSkip sArbVeto (PyVal.str "S") (PyVal.str "T")
     (by decide) rfl rfl).1,
   ((c3_unknown_aborts "skip this one" "skip this one" rfl rfl rfl rfl).2.2.2.2
     3 execAllFail tArbSkip sArbVeto (PyVal.str "S") (PyVal.str "T")
     (by decide) rfl rfl).2.1,
   ((c3_unknown_aborts "skip this one" "skip this one" rfl rfl rfl rfl).2.2.2.2
     3 execAllFail tArbSkip sArbVeto (PyVal.str "S") (PyVal.str "T")
     (by decide) rfl rfl).2.2.2.1⟩

/-- Claim C9: decision tokens are classified by substring containment
with `FIX` taking precedence.  After normalising (upper-case, strip
`*`), any text containing `FIX` is classified `FIX` by both debug
cleaners — even `"Do **not** FIX"` or a text that also contains
`REMAIN`/`VETO` — while `REMAIN` (TEST) and `VETO` (SOURCE) are
recognised only when `FIX` is absent. -/
theorem c9_substring_classification (raw : String) :
    (strContains "FIX" (normalizeDecisionText raw) = true →
      cleaner_debug_test_decision raw = "FIX" ∧
      cleaner_debug_source_decision raw = "FIX") ∧
    (strContains "FIX" (normalizeDecisionText raw) = false →
      strContains "REMAIN" (normalizeDecisionText raw) = true →
      cleaner_debug_test_decision raw = "REMAIN") ∧
    (strContains "FIX" (normalizeDecisionText raw) = false →
      strContains "VETO" (normalizeDecisionText raw) = true →
      cleaner_debug_source_decision raw = "VETO") ∧
    cleaner_debug_test_decision "Do **not** fix" = "FIX" ∧
    cleaner_debug_test_decision "**REMAIN**, do not fix" = "FIX" ∧
    cleaner_debug_source_decision "veto or fix" = "FIX" := by
  refine ⟨?_, ?_, ?_, rfl, rfl, rfl⟩
  · intro h
    constructor
    · unfold cleaner_debug_test_decision
      dsimp only
      rw [h, if_pos rfl]
    · unfold cleaner_debug_source_decision
      dsimp only
      rw [h, if_pos rfl]
  · intro hf hr
    unfold cleaner_debug_test_decision
    dsimp only
    rw [hf, hr]
    rfl
  · intro hf hv
    unfold cleaner_debug_source_decision
    dsimp only
    rw [hf, hv]
    rfl

/-- Claim C9, witness: `"please fix"` normalises to a text containing
`FIX` and is classified `FIX`. -/
theorem c9_witness :
    strContains "FIX" (normalizeDecisionText "please fix") = true ∧
    cleaner_debug_test_decision "please fix" = "FIX" ∧
    cleaner_debug_source_decision "please fix" = "FIX" :=
  ⟨rfl, ((c9_substring_classification "please fix").1 rfl).1,
   ((c9_substring_classification "please fix").1 rfl).2⟩

/-- Claim C10, counterexample: the field name is interpolated
unescaped into the pattern, so the schema `\x7b"(": "string"\x7d` builds the
pattern `"("\\s*:\\s*"(.*?)(?<!\\\\)"`, whose parentheses do not balance;
`re.search` raises `re.error` and `extract_json_regex` does not return
the defaulted record the claim requires — on any text, here the empty
one. -/
theorem c10_counterexample :
    fieldRegexSafe "(" = false ∧
    patternSyntaxOk (strFieldPattern "(") = false ∧
    extract_json_regex reFbNone "" [("(", "string")] = Except.error "re.error" ∧
    (Except.error "re.error" : Except String (List (String × PyVal))) ≠
      Except.ok [("(", PyVal.str "")] :=
  ⟨rfl, rfl, rfl, fun h => Except.noConfusion h⟩

/-- Claim C10, amended: for a schema whose kinds are all drawn from
string/list/bool and whose field names are regex-safe (no regex
metacharacter, so the interpolated pattern matches the name
literally), `extract_json_regex` returns without raising — whatever
the oracle for the unmodelled regex fragment would do — a dict whose
keys are exactly the schema's fields in order, where a field whose
pattern matches nowhere holds the kind-appropriate empty default
`""`, `[]` or `False`; but a field name with regex metacharacters can
make the pattern fail to compile, and the call raises instead of
returning. -/
theorem c10_regex_total_shape (fb : ReFallbacks) (text : String)
    (schema : List (String × String))
    (hk : ∀ p ∈ schema, p.2 = "string" ∨ p.2 = "list" ∨ p.2 = "bool")
    (hsafe : ∀ p ∈ schema, fieldRegexSafe p.1 = true) :
    extract_json_regex fb text schema = Except.ok (extractJsonRegexSafe text schema) ∧
    (extractJsonRegexSafe text schema).map Prod.fst = schema.map Prod.fst ∧
    (∀ p ∈ schema,
      (p.2 = "string" → reSearch (tryStrPat p.1.data) text.data = Option.none →
        (p.1, PyVal.str "") ∈ extractJsonRegexSafe text schema) ∧
      (p.2 = "list" → reSearch (tryListPat p.1.data) text.data = Option.none →
        (p.1, PyVal.list []) ∈ extractJsonRegexSafe text schema) ∧
      (p.2 = "bool" → reSearch (tryBoolPat p.1.data) text.data = Option.none →
        (p.1, PyVal.bool false) ∈ extractJsonRegexSafe text schema)) := by
  refine ⟨?_, ?_, ?_⟩
  · induction schema with
    | nil => rfl
    | cons q rest ih =>
      obtain ⟨f, ty⟩ := q
      have hq := hk (f, ty) (List.mem_cons_self _ _)
      have hqs := hsafe (f, ty) (List.mem_cons_self _ _)
      have ihr := ih (fun p hp => hk p (List.mem_cons_of_mem _ hp))
        (fun p hp => hsafe p (List.mem_cons_of_mem _ hp))
      rcases hq with h | h | h
      all_goals subst h
      · simp only [extract_json_regex, if_pos rfl]
        unfold reStrSearch
        rw [if_pos hqs, ihr]
        rfl
      · simp only [extract_json_regex]
        rw [if_pos trivial]
        unfold reListSearch
        rw [if_pos hqs, ihr]
        rfl
      · simp only [extract_json_regex]
        rw [if_pos trivial]
        unfold reBoolSearch
        rw [if_pos hqs, ihr]
        rfl
  · induction schema with
    | nil => rfl
    | cons q rest ih =>
      have hq := hk q (List.mem_cons_self _ _)
      have hrest := ih (fun p hp => hk p (List.mem_cons_of_mem _ hp))
        (fun p hp => hsafe p (List.mem_cons_of_mem _ hp))
      rcases hq with h | h | h
      all_goals
        simp [extractJsonRegexSafe, List.filterMap_cons, h] at hrest ⊢
        exact hrest
  · intro p hp
    refine ⟨?_, ?_, ?_⟩
    · intro hty hsearch
      refine List.mem_filterMap.mpr ⟨p, hp, ?_⟩
      rw [if_pos hty]
      have : regexStrVal p.1 text = PyVal.str "" := by
        unfold regexStrVal
        rw [hsearch]
        rfl
      rw [this]
    · intro hty hsearch
      refine List.mem_filterMap.mpr ⟨p, hp, ?_⟩
      have hne : ¬(p.2 = "string") := by rw [hty]; decide
      rw [if_neg hne, if_pos hty]
      have : regexListVal p.1 text = PyVal.list [] := by
        unfold regexListVal
        rw [hsearch]
        rfl
      rw [this]
    · intro hty hsearch
      refine List.mem_filterMap.mpr ⟨p, hp, ?_⟩
      have hne1 : ¬(p.2 = "string") := by rw [hty]; decide
      have hne2 : ¬(p.2 = "list") := by rw [hty]; decide
      rw [if_neg hne1, if_neg hne2, if_pos hty]
      have : regexBoolVal p.1 text = PyVal.bool false := by
        unfold regexBoolVal
        rw [hsearch]
        rfl
      rw [this]

/-- The schema of claim C10's witness: regex-safe field names of the
three kinds. -/
def c10schema : List (String × String) :=
  [("filename", "string"), ("packages", "list"), ("ok", "bool")]

/-- Claim C10, witness: on the empty text nothing matches, the call
returns without raising, the keys are exactly the schema's fields, and
each field holds its default. -/
theorem c10_witness :
    extract_json_regex reFbNone "" c10schema =
      Except.ok (extractJsonRegexSafe "" c10schema) ∧
    (extractJsonRegexSafe "" c10schema).map Prod.fst = ["filename", "packages", "ok"] ∧
    ("filename", PyVal.str "") ∈ extractJsonRegexSafe "" c10schema ∧
    ("packages", PyVal.list []) ∈ extractJsonRegexSafe "" c10schema ∧
    ("ok", PyVal.bool false) ∈ extractJsonRegexSafe "" c10schema := by
  have h := c10_regex_total_shape reFbNone "" c10schema (by decide) (by decide)
  refine ⟨h.1, ?_, ?_, ?_, ?_⟩
  · rw [h.2.1]; rfl
  · exact (h.2.2 ("filename", "string") (by decide)).1 rfl rfl
  · exact (h.2.2 ("packages", "list") (by decide)).2.1 rfl rfl
  · exact (h.2.2 ("ok", "bool") (by decide)).2.2 rfl rfl
